import Mathlib

/-!
Verification of the Homework-Organizer document-scanning image pipeline
(`src/utils/ImageProcessor.js` and its document-mode variant).

The pixel arithmetic of the JavaScript source is embedded over `ℚ`
(the source performs exact-valued float arithmetic on 8-bit channel data and
clamps explicitly; every operation used — `+ - * /`, `min`, `max`,
`Math.floor`, `Math.round` — is modelled exactly on rationals).
The geometric rectifier uses `Math.hypot` (a square root), so its corner
geometry is embedded over `ℝ`; those definitions are noncomputable and are
evaluated at concrete perfect-square inputs in the witnesses.

An `ImageBuffer` models a canvas `ImageData`: a flat row-major RGBA array,
4 rational channels per pixel.
-/

/-- A canvas pixel buffer: `width × height`, flat RGBA data, row-major,
one list entry per channel. Mirrors `ImageData` in the source. -/
@[ext]
structure ImageBuffer where
  width : ℕ
  height : ℕ
  data : List ℚ
  deriving DecidableEq

/-- Clamp `v` into `[lo, hi]`, as the source's `Math.max(lo, Math.min(hi, v))`. -/
def clampQ (lo hi v : ℚ) : ℚ := max lo (min hi v)

/-- Per-pixel brightness `(R + G + B) / 3`, as computed at
`ImageProcessor.js:121` and `part_000:126`. -/
def brightnessAt (img : ImageBuffer) (x y : ℕ) : ℚ :=
  (img.data.getD ((y * img.width + x) * 4) 0 +
   img.data.getD ((y * img.width + x) * 4 + 1) 0 +
   img.data.getD ((y * img.width + x) * 4 + 2) 0) / 3

/-- All pixel coordinates `(x, y)` of a `w × h` image, enumerated through the
flat pixel index exactly as the source's row loops do. -/
def allPixels (w h : ℕ) : List (ℕ × ℕ) :=
  (List.range (w * h)).map (fun p => (p % w, p / w))

/-- The pixels accumulated into block `(bx, bj)`: those with
`Math.floor(x / blockSize) = bx` and `Math.floor(y / blockSize) = bj`
(`ImageProcessor.js:123-125`). -/
def blockPixels (w h bs bx bj : ℕ) : List (ℕ × ℕ) :=
  (allPixels w h).filter (fun q => q.1 / bs == bx && q.2 / bs == bj)

/-- Number of blocks along a dimension: `Math.ceil(len / blockSize)`
(`ImageProcessor.js:111-112`), i.e. `(len + bs - 1) / bs` for `bs > 0`. -/
def blocksCount (len bs : ℕ) : ℕ := (len + bs - 1) / bs

/-- Mean brightness of block `(bx, bj)`: the accumulation loop of
`ImageProcessor.js:118-137` (sum of member brightnesses divided by the
member count; an empty block keeps value `0`, matching the guarded divide). -/
def blockMeanB (img : ImageBuffer) (bs bx bj : ℕ) : ℚ :=
  let pts := blockPixels img.width img.height bs bx bj
  (pts.map (fun q => brightnessAt img q.1 q.2)).sum / (pts.length : ℚ)

/-- Minimum brightness of block `(bx, bj)`: init `255`, folded with `Math.min`
(`part_000:119,132`). -/
def blockMinB (img : ImageBuffer) (bs bx bj : ℕ) : ℚ :=
  ((blockPixels img.width img.height bs bx bj).map
    (fun q => brightnessAt img q.1 q.2)).foldr min 255

/-- Maximum brightness of block `(bx, bj)`: init `0`, folded with `Math.max`
(`part_000:120,133`). -/
def blockMaxB (img : ImageBuffer) (bs bx bj : ℕ) : ℚ :=
  ((blockPixels img.width img.height bs bx bj).map
    (fun q => brightnessAt img q.1 q.2)).foldr max 0

/-- Global mean of all block means (`ImageProcessor.js:140-144`): the sum over
the flat block grid divided by the grid size. -/
def globalMeanB (img : ImageBuffer) (bs : ℕ) : ℚ :=
  let bX := blocksCount img.width bs
  let bJ := blocksCount img.height bs
  ((List.range (bX * bJ)).map (fun bi => blockMeanB img bs (bi % bX) (bi / bX))).sum /
    ((bX * bJ : ℕ) : ℚ)

/-- The lower block index used by the bilinear interpolation of
`ImageProcessor.js:156-162`: `Math.max(0, Math.floor(v/blockSize - 0.5))`. -/
def interpLow (bs v : ℕ) : ℕ := (max 0 ⌊(v : ℚ) / (bs : ℚ) - 1/2⌋).toNat

/-- The upper block index (`ImageProcessor.js:161-162`):
`Math.min(blocks - 1, low + 1)`. -/
def interpHigh (bn bs v : ℕ) : ℕ := min (bn - 1) (interpLow bs v + 1)

/-- The fractional interpolation weight (`ImageProcessor.js:164-165`):
`Math.max(0, Math.min(1, fv - low))`. -/
def interpFrac (bs v : ℕ) : ℚ :=
  max 0 (min 1 ((v : ℚ) / (bs : ℚ) - 1/2 - (interpLow bs v : ℚ)))

/-- Bilinear interpolation of a block-statistics grid `g` at pixel `(x, y)`,
exactly as `ImageProcessor.js:156-177` / `part_000:143-166`. -/
def interpBlocks (bX bJ bs : ℕ) (g : ℕ → ℕ → ℚ) (x y : ℕ) : ℚ :=
  g (interpLow bs x) (interpLow bs y) * (1 - interpFrac bs x) * (1 - interpFrac bs y) +
  g (interpHigh bX bs x) (interpLow bs y) * interpFrac bs x * (1 - interpFrac bs y) +
  g (interpLow bs x) (interpHigh bJ bs y) * (1 - interpFrac bs x) * interpFrac bs y +
  g (interpHigh bX bs x) (interpHigh bJ bs y) * interpFrac bs x * interpFrac bs y

/-- Interpolated local brightness at a pixel (`ImageProcessor.js:168-177`). -/
def localBrightnessAt (img : ImageBuffer) (bs x y : ℕ) : ℚ :=
  interpBlocks (blocksCount img.width bs) (blocksCount img.height bs) bs
    (blockMeanB img bs) x y

/-- The correction factor of `ImageProcessor.js:182-189`: `1` unless the
interpolated local brightness is strictly positive, in which case
`target / local` is blended toward `1` by `strength` and clamped to
`[0.5, 2.0]`. -/
def correctionFactorAt (img : ImageBuffer) (bs : ℕ) (strength : ℚ) (x y : ℕ) : ℚ :=
  let lb := localBrightnessAt img bs x y
  if 0 < lb then
    max (1/2) (min 2 (1 + (globalMeanB img bs / lb - 1) * strength))
  else 1

/-- `adaptiveLightingCorrection` (`ImageProcessor.js:98-200`): every R, G, B
channel of every pixel is replaced by `Math.min(255, value * factor)`; the
alpha channel is never written. -/
def adaptiveLightingCorrection (img : ImageBuffer) (bs : ℕ) (strength : ℚ) :
    ImageBuffer where
  width := img.width
  height := img.height
  data := (List.range img.data.length).map (fun i =>
    if i / 4 < img.width * img.height ∧ i % 4 < 3 then
      min 255 (img.data.getD i 0 *
        correctionFactorAt img bs strength ((i / 4) % img.width) ((i / 4) / img.width))
    else img.data.getD i 0)

/-- Interpolated local minimum brightness at a pixel (`part_000:155-159`). -/
def localMinAt (img : ImageBuffer) (bs x y : ℕ) : ℚ :=
  interpBlocks (blocksCount img.width bs) (blocksCount img.height bs) bs
    (blockMinB img bs) x y

/-- Interpolated local maximum brightness at a pixel (`part_000:162-166`). -/
def localMaxAt (img : ImageBuffer) (bs x y : ℕ) : ℚ :=
  interpBlocks (blocksCount img.width bs) (blocksCount img.height bs) bs
    (blockMaxB img bs) x y

/-- The per-channel transform of document mode (`part_000:170-195`): skip when
the local range is at most `20`; otherwise split at
`threshold = localMin + range * whitePoint` into a paper curve
(`255 - (1 - paperRatio) * 40`) and an ink rescale
(`normalized * 215`), then clamp to `[0, 255]`. -/
def documentModeChannel (lmin lmax wp v : ℚ) : ℚ :=
  let rng := lmax - lmin
  if 20 < rng then
    let threshold := lmin + rng * wp
    let adjusted :=
      if threshold < v then
        255 - (1 - (v - threshold) / (lmax - threshold + 1)) * 40
      else ((v - lmin) / rng) * 215
    clampQ 0 255 adjusted
  else v

/-- `applyDocumentMode` (`part_000:98-202`): local contrast stretching applied
independently to the R, G, B channels of every pixel; alpha is never written. -/
def applyDocumentMode (img : ImageBuffer) (bs : ℕ) (wp : ℚ) : ImageBuffer where
  width := img.width
  height := img.height
  data := (List.range img.data.length).map (fun i =>
    if i / 4 < img.width * img.height ∧ i % 4 < 3 then
      documentModeChannel
        (localMinAt img bs ((i / 4) % img.width) ((i / 4) / img.width))
        (localMaxAt img bs ((i / 4) % img.width) ((i / 4) / img.width))
        wp (img.data.getD i 0)
    else img.data.getD i 0)

/-- Luma used by the grayscale option (`ImageProcessor.js:231`):
`0.299 R + 0.587 G + 0.114 B`. -/
def lumaOf (r g b : ℚ) : ℚ := (299/1000) * r + (587/1000) * g + (114/1000) * b

/-- One output channel of `enhanceDocument` (`ImageProcessor.js:224-248`):
optional grayscale replacement, contrast centred at 128, brightness offset,
final clamp to `[0, 255]`. `c` selects the channel (0 = R, 1 = G, 2 = B). -/
def enhanceChannelVal (contrast bright : ℚ) (gs : Bool) (r g b : ℚ) (c : ℕ) : ℚ :=
  let v0 := if c = 0 then r else if c = 1 then g else b
  let v1 := if gs then lumaOf r g b else v0
  clampQ 0 255 ((v1 - 128) * contrast + 128 + bright)

/-- `enhanceDocument` (`ImageProcessor.js:213-253`): the loop walks the flat
data in steps of 4, rewriting channels 0–2 of each group and leaving
channel 3 (alpha) untouched. -/
def enhanceDocument (img : ImageBuffer) (contrast bright : ℚ) (gs : Bool) :
    ImageBuffer where
  width := img.width
  height := img.height
  data := (List.range img.data.length).map (fun i =>
    if i % 4 < 3 then
      enhanceChannelVal contrast bright gs
        (img.data.getD (4 * (i / 4)) 0)
        (img.data.getD (4 * (i / 4) + 1) 0)
        (img.data.getD (4 * (i / 4) + 2) 0)
        (i % 4)
    else img.data.getD i 0)

/-- A corner point, in source-image pixel coordinates. The rectifier's corner
geometry goes through `Math.hypot` (a square root), so coordinates are reals. -/
structure Pt where
  x : ℝ
  y : ℝ

/-- `Math.hypot(a, b)` in real semantics: the Euclidean norm `√(a² + b²)`. -/
noncomputable def mathHypot (a b : ℝ) : ℝ := Real.sqrt (a ^ 2 + b ^ 2)

/-- `srcWidth` of `applyPerspectiveCorrection` (`ImageProcessor.js:26-29`):
the larger of the top and bottom edge lengths. -/
noncomputable def srcQuadWidth (tl tr br bl : Pt) : ℝ :=
  max (mathHypot (tr.x - tl.x) (tr.y - tl.y)) (mathHypot (br.x - bl.x) (br.y - bl.y))

/-- `srcHeight` of `applyPerspectiveCorrection` (`ImageProcessor.js:30-33`):
the larger of the left and right edge lengths. -/
noncomputable def srcQuadHeight (tl tr br bl : Pt) : ℝ :=
  max (mathHypot (bl.x - tl.x) (bl.y - tl.y)) (mathHypot (br.x - tr.x) (br.y - tr.y))

/-- `tempWidth = Math.round(srcWidth)` (`ImageProcessor.js:37`). `round` on `ℝ`
is `⌊x + 1/2⌋`, exactly `Math.round`'s round-half-up. -/
noncomputable def tempWidth (tl tr br bl : Pt) : ℕ :=
  (round (srcQuadWidth tl tr br bl)).toNat

/-- `tempHeight = Math.round(srcHeight)` (`ImageProcessor.js:38`). -/
noncomputable def tempHeight (tl tr br bl : Pt) : ℕ :=
  (round (srcQuadHeight tl tr br bl)).toNat

/-- The x component of the inverse bilinear map (`ImageProcessor.js:58-62`):
`u = x/W`, `v = y/H`, then the corner blend. -/
noncomputable def srcPointX (tl tr br bl : Pt) (tw th x y : ℕ) : ℝ :=
  let u : ℝ := (x : ℝ) / (tw : ℝ)
  let v : ℝ := (y : ℝ) / (th : ℝ)
  (1 - u) * (1 - v) * tl.x + u * (1 - v) * tr.x + u * v * br.x + (1 - u) * v * bl.x

/-- The y component of the inverse bilinear map (`ImageProcessor.js:59-63`). -/
noncomputable def srcPointY (tl tr br bl : Pt) (tw th x y : ℕ) : ℝ :=
  let u : ℝ := (x : ℝ) / (tw : ℝ)
  let v : ℝ := (y : ℝ) / (th : ℝ)
  (1 - u) * (1 - v) * tl.y + u * (1 - v) * tr.y + u * v * br.y + (1 - u) * v * bl.y

/-- The bounds check of `ImageProcessor.js:69`:
`sx >= 0 && sx < srcWidth && sy >= 0 && sy < srcHeight`. -/
def inSrcBounds (img : ImageBuffer) (sx sy : ℤ) : Prop :=
  0 ≤ sx ∧ sx < (img.width : ℤ) ∧ 0 ≤ sy ∧ sy < (img.height : ℤ)

instance (img : ImageBuffer) (sx sy : ℤ) : Decidable (inSrcBounds img sx sy) :=
  inferInstanceAs (Decidable (_ ∧ _ ∧ _ ∧ _))

/-- Reading one channel of the source at a rounded sample point
(`ImageProcessor.js:69-76`): inside bounds the source channel is copied;
outside, the `createImageData` zero fill is left in place. -/
def sampleSrc (img : ImageBuffer) (sx sy : ℤ) (c : ℕ) : ℚ :=
  if inSrcBounds img sx sy then
    img.data.getD ((sy.toNat * img.width + sx.toNat) * 4 + c) 0
  else 0

/-- The intermediate (temp-canvas) buffer of `applyPerspectiveCorrection`
(`ImageProcessor.js:52-80`): for each pixel the source is sampled at the
rounded inverse-bilinear point; unsampled pixels keep the zero fill.
The `createImageData(tempWidth, tempHeight)` call that produces this buffer
throws when either dimension is zero; that error path is modelled by the
caller (`applyPerspectiveCorrection`), which reaches this definition only
with both dimensions positive. -/
noncomputable def rectifyIntermediate (img : ImageBuffer) (tl tr br bl : Pt) :
    ImageBuffer where
  width := tempWidth tl tr br bl
  height := tempHeight tl tr br bl
  data := (List.range (tempWidth tl tr br bl * tempHeight tl tr br bl * 4)).map
    (fun i =>
      sampleSrc img
        (round (srcPointX tl tr br bl (tempWidth tl tr br bl)
          (tempHeight tl tr br bl) ((i / 4) % tempWidth tl tr br bl)
          ((i / 4) / tempWidth tl tr br bl)))
        (round (srcPointY tl tr br bl (tempWidth tl tr br bl)
          (tempHeight tl tr br bl) ((i / 4) % tempWidth tl tr br bl)
          ((i / 4) / tempWidth tl tr br bl)))
        (i % 4))

/-- Modelled from the spec: the final `ctx.drawImage(tempCanvas, 0, 0,
outputWidth, outputHeight)` resize (`ImageProcessor.js:83`). The browser's
resampling filter is implementation-defined (the spec asks for a smooth
area/bilinear filter); no claim constrains the filter weights, so the resize
is modelled as plain coordinate-scaled sampling. What the claims do use —
that the result has exactly the requested `outputWidth × outputHeight`
dimensions — is the canvas sizing of `ImageProcessor.js:17-19`, kept exact.
`drawImage` throws on a zero-size source canvas; the caller's zero-dimension
guard ensures this definition is only reached with a positive-size source. -/
def drawImageScaled (src : ImageBuffer) (outW outH : ℕ) : ImageBuffer where
  width := outW
  height := outH
  data := (List.range (outW * outH * 4)).map (fun i =>
    src.data.getD
      (((((i / 4) / outW) * src.height / outH) * src.width +
        ((i / 4) % outW) * src.width / outW) * 4 + i % 4) 0)

/-- `applyPerspectiveCorrection` (`ImageProcessor.js:16-86`). The source
destructures `[tl, tr, br, bl] = corners` and immediately reads `.x`/`.y` of
each: with fewer than four points a destructured corner is `undefined` and the
property read throws, modelled as `none`; extra points beyond the first four
are ignored. When the rounded quadrilateral dimensions collapse to zero, the
`tempCtx.createImageData(tempWidth, tempHeight)` call at
`ImageProcessor.js:52` throws `IndexSizeError` (the HTML standard rejects a
zero-size `ImageData`), so no buffer is produced: modelled as `none`. -/
noncomputable def applyPerspectiveCorrection (img : ImageBuffer)
    (corners : List Pt) (outW outH : ℕ) : Option ImageBuffer :=
  match corners[0]?, corners[1]?, corners[2]?, corners[3]? with
  | some tl, some tr, some br, some bl =>
      if tempWidth tl tr br bl = 0 ∨ tempHeight tl tr br bl = 0 then none
      else some (drawImageScaled (rectifyIntermediate img tl tr br bl) outW outH)
  | _, _, _, _ => none

/-- `processDocument` (`ImageProcessor.js:263-290`): perspective correction,
then (when enabled) adaptive lighting correction at the function's default
block size 24, then enhancement. The final `canvas.toBlob` JPEG encoding is
outside the pixel model; the processed buffer itself is returned. -/
noncomputable def processDocument (img : ImageBuffer) (corners : List Pt)
    (outW outH : ℕ) (contrast bright : ℚ) (gs adaptive : Bool)
    (lightingStrength : ℚ) : Option ImageBuffer :=
  (applyPerspectiveCorrection img corners outW outH).map (fun canvas =>
    enhanceDocument
      (if adaptive then adaptiveLightingCorrection canvas 24 lightingStrength
       else canvas)
      contrast bright gs)

/-- Written from the spec's words (§4.1 step 1): Euclidean distance between
two corner points. -/
noncomputable def euclideanDist (p q : Pt) : ℝ :=
  Real.sqrt ((p.x - q.x) ^ 2 + (p.y - q.y) ^ 2)

/-- Written from the spec's words: intermediate width = rounded maximum of the
top edge length (TL–TR) and the bottom edge length (BL–BR). -/
noncomputable def specIntermediateWidth (tl tr br bl : Pt) : ℕ :=
  (round (max (euclideanDist tl tr) (euclideanDist bl br))).toNat

/-- Written from the spec's words: intermediate height = rounded maximum of
the left edge length (TL–BL) and the right edge length (TR–BR). -/
noncomputable def specIntermediateHeight (tl tr br bl : Pt) : ℕ :=
  (round (max (euclideanDist tl bl) (euclideanDist tr br))).toNat

/-- Written from the spec's words (§4.1 step 2): the x component of
`(1-u)(1-v)·TL + u(1-v)·TR + uv·BR + (1-u)v·BL` with `u = x/W`, `v = y/H`. -/
noncomputable def specSourcePointX (tl tr br bl : Pt) (W H x y : ℕ) : ℝ :=
  (1 - (x : ℝ) / W) * (1 - (y : ℝ) / H) * tl.x +
  ((x : ℝ) / W) * (1 - (y : ℝ) / H) * tr.x +
  ((x : ℝ) / W) * ((y : ℝ) / H) * br.x +
  (1 - (x : ℝ) / W) * ((y : ℝ) / H) * bl.x

/-- Written from the spec's words: the y component of the corner blend. -/
noncomputable def specSourcePointY (tl tr br bl : Pt) (W H x y : ℕ) : ℝ :=
  (1 - (x : ℝ) / W) * (1 - (y : ℝ) / H) * tl.y +
  ((x : ℝ) / W) * (1 - (y : ℝ) / H) * tr.y +
  ((x : ℝ) / W) * ((y : ℝ) / H) * br.y +
  (1 - (x : ℝ) / W) * ((y : ℝ) / H) * bl.y

/-! ## General helper lemmas -/

theorem getD_range_map (n i : ℕ) (f : ℕ → ℚ) (h : i < n) :
    ((List.range n).map f).getD i 0 = f i := by
  rw [List.getD_eq_getElem?_getD, List.getElem?_map, List.getElem?_range h]
  rfl

theorem getD_out_of_range (l : List ℚ) (i : ℕ) (h : l.length ≤ i) :
    l.getD i 0 = 0 := by
  rw [List.getD_eq_getElem?_getD, List.getElem?_eq_none h]
  rfl

theorem getD_mem (l : List ℚ) (i : ℕ) (h : i < l.length) : l.getD i 0 ∈ l := by
  rw [List.getD_eq_getElem?_getD, List.getElem?_eq_getElem h]
  exact List.getElem_mem h

theorem pix_mod (w x y : ℕ) (hx : x < w) : (y * w + x) % w = x := by
  rw [Nat.add_comm, Nat.add_mul_mod_self_right, Nat.mod_eq_of_lt hx]

theorem pix_div (w x y : ℕ) (hx : x < w) : (y * w + x) / w = y := by
  have hw : 0 < w := Nat.pos_of_ne_zero (by omega)
  rw [Nat.add_comm, Nat.add_mul_div_right _ _ hw, Nat.div_eq_of_lt hx, Nat.zero_add]

theorem pix_lt (w h x y : ℕ) (hx : x < w) (hy : y < h) : y * w + x < w * h :=
  calc y * w + x < (y + 1) * w := by rw [Nat.add_mul, Nat.one_mul]; omega
  _ ≤ h * w := Nat.mul_le_mul_right w hy
  _ = w * h := Nat.mul_comm h w

theorem idx_lt (w h x y c : ℕ) (hx : x < w) (hy : y < h) (hc : c < 4) :
    (y * w + x) * 4 + c < w * h * 4 := by
  have := pix_lt w h x y hx hy
  omega

theorem clampQ_nonneg (v : ℚ) : 0 ≤ clampQ 0 255 v := le_max_left _ _

theorem clampQ_le (v : ℚ) : clampQ 0 255 v ≤ 255 :=
  max_le (by norm_num) (min_le_left _ _)

theorem clampQ_eq_self (v : ℚ) (h0 : 0 ≤ v) (h1 : v ≤ 255) : clampQ 0 255 v = v := by
  unfold clampQ
  rw [min_eq_right h1, max_eq_right h0]

theorem clampQ_le_of_le {v b : ℚ} (hv : v ≤ b) (hb : 0 ≤ b) : clampQ 0 255 v ≤ b :=
  max_le hb (le_trans (min_le_right _ _) hv)

theorem le_clampQ_of_le {v b : ℚ} (hv : b ≤ v) (hb : b ≤ 255) : b ≤ clampQ 0 255 v :=
  le_trans (le_min hb hv) (le_max_right _ _)

theorem sum_map_const {α : Type} (l : List α) (f : α → ℚ) (B : ℚ)
    (h : ∀ a ∈ l, f a = B) : (l.map f).sum = (l.length : ℚ) * B := by
  induction l with
  | nil => simp
  | cons a t ih =>
      rw [List.map_cons, List.sum_cons, h a (List.mem_cons_self a t),
        ih (fun x hx => h x (List.mem_cons_of_mem a hx)), List.length_cons]
      push_cast
      ring

/-! ## Block-grid helper lemmas -/

theorem mem_allPixels_bounds {w h : ℕ} {q : ℕ × ℕ} (hq : q ∈ allPixels w h) :
    q.1 < w ∧ q.2 < h := by
  unfold allPixels at hq
  rw [List.mem_map] at hq
  obtain ⟨p, hp, rfl⟩ := hq
  rw [List.mem_range] at hp
  have hw : 0 < w := by
    rcases Nat.eq_zero_or_pos w with h0 | h0
    · subst h0; omega
    · exact h0
  refine ⟨Nat.mod_lt p hw, (Nat.div_lt_iff_lt_mul hw).2 ?_⟩
  rwa [Nat.mul_comm w h] at hp

theorem allPixels_mem (w h x y : ℕ) (hx : x < w) (hy : y < h) :
    (x, y) ∈ allPixels w h := by
  unfold allPixels
  rw [List.mem_map]
  refine ⟨y * w + x, List.mem_range.2 (pix_lt w h x y hx hy), ?_⟩
  rw [pix_mod w x y hx, pix_div w x y hx]

theorem mem_blockPixels {w h bs bx bj : ℕ} {q : ℕ × ℕ} :
    q ∈ blockPixels w h bs bx bj ↔
      q ∈ allPixels w h ∧ q.1 / bs = bx ∧ q.2 / bs = bj := by
  unfold blockPixels
  rw [List.mem_filter]
  simp only [Bool.and_eq_true, beq_iff_eq]

theorem le_blocksCount_mul (w bs : ℕ) (hbs : 0 < bs) : w ≤ blocksCount w bs * bs := by
  have h1 : bs * ((w + bs - 1) / bs) + (w + bs - 1) % bs = w + bs - 1 :=
    Nat.div_add_mod _ _
  have h2 : (w + bs - 1) % bs < bs := Nat.mod_lt _ hbs
  unfold blocksCount
  rw [Nat.mul_comm]
  generalize hm : bs * ((w + bs - 1) / bs) = m at h1 ⊢
  omega

theorem blocksCount_pos (w bs : ℕ) (hbs : 0 < bs) (hw : 0 < w) :
    0 < blocksCount w bs := by
  unfold blocksCount
  exact Nat.div_pos (by omega) hbs

theorem blockIdx_mul_lt (w bs bx : ℕ) (hbs : 0 < bs) (hbx : bx < blocksCount w bs) :
    bx * bs < w := by
  have h : (bx + 1) * bs ≤ w + bs - 1 :=
    (Nat.le_div_iff_mul_le hbs).1 (Nat.succ_le_of_lt hbx)
  have h2 : (bx + 1) * bs = bx * bs + bs := by ring
  rw [h2] at h
  generalize hm : bx * bs = m at h ⊢
  omega

theorem interpLow_lt {bs v bn : ℕ} (hbn : 0 < bn) (hv : (v : ℚ) / (bs : ℚ) < bn) :
    interpLow bs v < bn := by
  unfold interpLow
  have h1 : ⌊(v : ℚ) / (bs : ℚ) - 1/2⌋ < (bn : ℤ) := by
    rw [Int.floor_lt]
    push_cast
    linarith
  rcases le_or_lt 0 ⌊(v : ℚ) / (bs : ℚ) - 1/2⌋ with h | h
  · rw [max_eq_right h]; omega
  · rw [max_eq_left h.le]; simpa using hbn

theorem interpHigh_lt {bn bs v : ℕ} (hbn : 0 < bn) : interpHigh bn bs v < bn := by
  unfold interpHigh
  have := Nat.min_le_left (bn - 1) (interpLow bs v + 1)
  omega

theorem interpBlocks_const (bX bJ bs : ℕ) (g : ℕ → ℕ → ℚ) (B : ℚ) (x y : ℕ)
    (hbX : 0 < bX) (hbJ : 0 < bJ)
    (hx : (x : ℚ) / (bs : ℚ) < bX) (hy : (y : ℚ) / (bs : ℚ) < bJ)
    (hg : ∀ bx bj, bx < bX → bj < bJ → g bx bj = B) :
    interpBlocks bX bJ bs g x y = B := by
  unfold interpBlocks
  rw [hg _ _ (interpLow_lt hbX hx) (interpLow_lt hbJ hy),
    hg _ _ (interpHigh_lt hbX) (interpLow_lt hbJ hy),
    hg _ _ (interpLow_lt hbX hx) (interpHigh_lt hbJ),
    hg _ _ (interpHigh_lt hbX) (interpHigh_lt hbJ)]
  ring

theorem uniform_blockMean (img : ImageBuffer) (bs bx bj : ℕ) (B : ℚ)
    (hbs : 0 < bs)
    (hB : ∀ x, x < img.width → ∀ y, y < img.height → brightnessAt img x y = B)
    (hbx : bx < blocksCount img.width bs) (hbj : bj < blocksCount img.height bs) :
    blockMeanB img bs bx bj = B := by
  have hxw : bx * bs < img.width := blockIdx_mul_lt _ _ _ hbs hbx
  have hyh : bj * bs < img.height := blockIdx_mul_lt _ _ _ hbs hbj
  have hmem : (bx * bs, bj * bs) ∈ blockPixels img.width img.height bs bx bj :=
    mem_blockPixels.2 ⟨allPixels_mem _ _ _ _ hxw hyh,
      Nat.mul_div_cancel bx hbs, Nat.mul_div_cancel bj hbs⟩
  have hne : (blockPixels img.width img.height bs bx bj).length ≠ 0 :=
    Nat.pos_iff_ne_zero.1 (List.length_pos.2 (List.ne_nil_of_mem hmem))
  have hsum : ((blockPixels img.width img.height bs bx bj).map
      (fun q => brightnessAt img q.1 q.2)).sum =
      ((blockPixels img.width img.height bs bx bj).length : ℚ) * B := by
    apply sum_map_const
    intro q hq
    have hb := mem_allPixels_bounds (mem_blockPixels.1 hq).1
    exact hB q.1 hb.1 q.2 hb.2
  simp only [blockMeanB]
  rw [hsum, mul_comm, mul_div_assoc, div_self (by exact_mod_cast hne), mul_one]

theorem uniform_globalMean (img : ImageBuffer) (bs : ℕ) (B : ℚ)
    (hbs : 0 < bs) (hw : 0 < img.width) (hh : 0 < img.height)
    (hB : ∀ x, x < img.width → ∀ y, y < img.height → brightnessAt img x y = B) :
    globalMeanB img bs = B := by
  have hbX : 0 < blocksCount img.width bs := blocksCount_pos _ _ hbs hw
  have hbJ : 0 < blocksCount img.height bs := blocksCount_pos _ _ hbs hh
  have hsum : ((List.range (blocksCount img.width bs * blocksCount img.height bs)).map
      (fun bi => blockMeanB img bs (bi % blocksCount img.width bs)
        (bi / blocksCount img.width bs))).sum =
      (((List.range (blocksCount img.width bs * blocksCount img.height bs)).length : ℚ)) * B := by
    apply sum_map_const
    intro bi hbi
    rw [List.mem_range] at hbi
    exact uniform_blockMean img bs _ _ B hbs hB (Nat.mod_lt bi hbX)
      ((Nat.div_lt_iff_lt_mul hbX).2 (by rwa [Nat.mul_comm (blocksCount img.width bs)] at hbi))
  simp only [globalMeanB]
  rw [hsum, List.length_range, mul_comm, mul_div_assoc,
    div_self (by exact_mod_cast Nat.pos_iff_ne_zero.1 (Nat.mul_pos hbX hbJ)), mul_one]

theorem uniform_localBrightness (img : ImageBuffer) (bs x y : ℕ) (B : ℚ)
    (hbs : 0 < bs) (hx : x < img.width) (hy : y < img.height)
    (hB : ∀ x, x < img.width → ∀ y, y < img.height → brightnessAt img x y = B) :
    localBrightnessAt img bs x y = B := by
  have hw : 0 < img.width := by omega
  have hh : 0 < img.height := by omega
  apply interpBlocks_const _ _ _ _ _ _ _
    (blocksCount_pos _ _ hbs hw) (blocksCount_pos _ _ hbs hh)
  · rw [div_lt_iff₀ (by exact_mod_cast hbs)]
    calc (x : ℚ) < (img.width : ℚ) := by exact_mod_cast hx
    _ ≤ (blocksCount img.width bs * bs : ℕ) := by exact_mod_cast le_blocksCount_mul _ _ hbs
    _ = (blocksCount img.width bs : ℚ) * bs := by push_cast; ring
  · rw [div_lt_iff₀ (by exact_mod_cast hbs)]
    calc (y : ℚ) < (img.height : ℚ) := by exact_mod_cast hy
    _ ≤ (blocksCount img.height bs * bs : ℕ) := by exact_mod_cast le_blocksCount_mul _ _ hbs
    _ = (blocksCount img.height bs : ℚ) * bs := by push_cast; ring
  · exact fun bx bj hbx hbj => uniform_blockMean img bs bx bj B hbs hB hbx hbj

theorem buffer_data_eq (img : ImageBuffer) (f : ℕ → ℚ)
    (h : ∀ i, i < img.data.length → f i = img.data.getD i 0) :
    (List.range img.data.length).map f = img.data := by
  apply List.ext_getElem (by simp)
  intro i h1 h2
  rw [List.getElem_map, List.getElem_range, h i h2, List.getD_eq_getElem?_getD,
    List.getElem?_eq_getElem h2]
  rfl

theorem touched_bounds {w h i : ℕ} (hp : i / 4 < w * h) :
    (i / 4) % w < w ∧ (i / 4) / w < h := by
  have hw : 0 < w := by
    rcases Nat.eq_zero_or_pos w with h0 | h0
    · subst h0; simp at hp
    · exact h0
  exact ⟨Nat.mod_lt _ hw, (Nat.div_lt_iff_lt_mul hw).2 (by rwa [Nat.mul_comm w h] at hp)⟩

theorem enhanceChannelVal_id (r g b : ℚ) (c : ℕ) :
    enhanceChannelVal 1 0 false r g b c =
      clampQ 0 255 (if c = 0 then r else if c = 1 then g else b) := by
  simp only [enhanceChannelVal, Bool.false_eq_true, if_false]
  congr 1
  ring

/-- C7: `enhanceDocument` with `contrast = 1`, `brightness = 0`,
`grayscale = false` is the identity transform: every channel of every pixel of
any valid 8-bit buffer is unchanged. -/
theorem enhance_identity (img : ImageBuffer)
    (hv : ∀ v ∈ img.data, 0 ≤ v ∧ v ≤ 255) :
    enhanceDocument img 1 0 false = img := by
  refine ImageBuffer.ext rfl rfl ?_
  show (List.range img.data.length).map _ = img.data
  apply buffer_data_eq
  intro i hi
  by_cases hc : i % 4 < 3
  · rw [if_pos hc, enhanceChannelVal_id]
    have hmem := hv _ (getD_mem img.data i hi)
    have h3 : i % 4 = 0 ∨ i % 4 = 1 ∨ i % 4 = 2 := by omega
    rcases h3 with h0 | h0 | h0
    · rw [h0, if_pos rfl, show 4 * (i / 4) = i by omega]
      exact clampQ_eq_self _ hmem.1 hmem.2
    · rw [h0, if_neg (by decide), if_pos rfl, show 4 * (i / 4) + 1 = i by omega]
      exact clampQ_eq_self _ hmem.1 hmem.2
    · rw [h0, if_neg (by decide), if_neg (by decide), show 4 * (i / 4) + 2 = i by omega]
      exact clampQ_eq_self _ hmem.1 hmem.2
  · rw [if_neg hc]

/-- C7 witness: the identity instance at a concrete 1×1 RGBA buffer. -/
theorem enhance_identity_witness :
    (∀ v ∈ (ImageBuffer.mk 1 1 [10, 20, 30, 40]).data, 0 ≤ v ∧ v ≤ 255) ∧
    enhanceDocument (ImageBuffer.mk 1 1 [10, 20, 30, 40]) 1 0 false =
      ImageBuffer.mk 1 1 [10, 20, 30, 40] :=
  ⟨by intro v hv; fin_cases hv <;> norm_num,
   enhance_identity _ (by intro v hv; fin_cases hv <;> norm_num)⟩

/-- C9: the three enhancement stages never write the alpha channel: at every
flat index `i` with `i % 4 = 3`, the output channel equals the input channel,
for every buffer and every parameter choice. -/
theorem alpha_untouched (img : ImageBuffer) (bs : ℕ) (strength wp contrast bright : ℚ)
    (gs : Bool) (i : ℕ) (hi : i % 4 = 3) :
    (adaptiveLightingCorrection img bs strength).data.getD i 0 = img.data.getD i 0 ∧
    (applyDocumentMode img bs wp).data.getD i 0 = img.data.getD i 0 ∧
    (enhanceDocument img contrast bright gs).data.getD i 0 = img.data.getD i 0 := by
  by_cases hlen : i < img.data.length
  · refine ⟨?_, ?_, ?_⟩
    · show ((List.range img.data.length).map _).getD i 0 = _
      rw [getD_range_map _ _ _ hlen, if_neg (by simp [hi])]
    · show ((List.range img.data.length).map _).getD i 0 = _
      rw [getD_range_map _ _ _ hlen, if_neg (by simp [hi])]
    · show ((List.range img.data.length).map _).getD i 0 = _
      rw [getD_range_map _ _ _ hlen, if_neg (by omega)]
  · have hle : img.data.length ≤ i := not_lt.1 hlen
    refine ⟨?_, ?_, ?_⟩ <;>
      · show ((List.range img.data.length).map _).getD i 0 = _
        rw [getD_out_of_range _ i (by simpa using hle), getD_out_of_range _ i hle]

/-- C9 witness: alpha preservation at the concrete alpha index `3` of a 1×1
buffer, across all three stages. -/
theorem alpha_untouched_witness :
    (3 % 4 = 3) ∧
    ((adaptiveLightingCorrection (ImageBuffer.mk 1 1 [10, 20, 30, 40]) 1 (9/10)).data.getD 3 0 =
        (ImageBuffer.mk 1 1 [10, 20, 30, 40]).data.getD 3 0 ∧
      (applyDocumentMode (ImageBuffer.mk 1 1 [10, 20, 30, 40]) 1 (17/20)).data.getD 3 0 =
        (ImageBuffer.mk 1 1 [10, 20, 30, 40]).data.getD 3 0 ∧
      (enhanceDocument (ImageBuffer.mk 1 1 [10, 20, 30, 40]) (3/2) 10 true).data.getD 3 0 =
        (ImageBuffer.mk 1 1 [10, 20, 30, 40]).data.getD 3 0) :=
  ⟨rfl, alpha_untouched (ImageBuffer.mk 1 1 [10, 20, 30, 40]) 1 (9/10) (17/20)
    (3/2) 10 true 3 rfl⟩

theorem correctionFactor_pos (img : ImageBuffer) (bs : ℕ) (s : ℚ) (x y : ℕ) :
    0 < correctionFactorAt img bs s x y := by
  simp only [correctionFactorAt]
  split
  · exact lt_of_lt_of_le (by norm_num) (le_max_left _ _)
  · norm_num

theorem documentModeChannel_range (lmin lmax wp v : ℚ) (h0 : 0 ≤ v) (h1 : v ≤ 255) :
    0 ≤ documentModeChannel lmin lmax wp v ∧ documentModeChannel lmin lmax wp v ≤ 255 := by
  simp only [documentModeChannel]
  split
  · exact ⟨clampQ_nonneg _, clampQ_le _⟩
  · exact ⟨h0, h1⟩

/-- C3: on any valid 8-bit input buffer, each of the three stages —
`adaptiveLightingCorrection`, `applyDocumentMode`, `enhanceDocument` —
produces only channel values inside `[0, 255]`, for arbitrary parameters. -/
theorem stages_preserve_range (img : ImageBuffer) (bs : ℕ)
    (strength wp contrast bright : ℚ) (gs : Bool)
    (hv : ∀ v ∈ img.data, 0 ≤ v ∧ v ≤ 255) :
    (∀ v ∈ (adaptiveLightingCorrection img bs strength).data, 0 ≤ v ∧ v ≤ 255) ∧
    (∀ v ∈ (applyDocumentMode img bs wp).data, 0 ≤ v ∧ v ≤ 255) ∧
    (∀ v ∈ (enhanceDocument img contrast bright gs).data, 0 ≤ v ∧ v ≤ 255) := by
  refine ⟨?_, ?_, ?_⟩
  · intro v hvm
    have hvm' : v ∈ (List.range img.data.length).map (fun i =>
        if i / 4 < img.width * img.height ∧ i % 4 < 3 then
          min 255 (img.data.getD i 0 *
            correctionFactorAt img bs strength ((i / 4) % img.width) ((i / 4) / img.width))
        else img.data.getD i 0) := hvm
    obtain ⟨i, hir, rfl⟩ := List.mem_map.1 hvm'
    rw [List.mem_range] at hir
    by_cases hg : i / 4 < img.width * img.height ∧ i % 4 < 3
    · rw [if_pos hg]
      have hm := hv _ (getD_mem img.data i hir)
      have hf := correctionFactor_pos img bs strength ((i / 4) % img.width) ((i / 4) / img.width)
      exact ⟨le_min (by norm_num) (mul_nonneg hm.1 hf.le), min_le_left _ _⟩
    · rw [if_neg hg]
      exact hv _ (getD_mem img.data i hir)
  · intro v hvm
    have hvm' : v ∈ (List.range img.data.length).map (fun i =>
        if i / 4 < img.width * img.height ∧ i % 4 < 3 then
          documentModeChannel
            (localMinAt img bs ((i / 4) % img.width) ((i / 4) / img.width))
            (localMaxAt img bs ((i / 4) % img.width) ((i / 4) / img.width))
            wp (img.data.getD i 0)
        else img.data.getD i 0) := hvm
    obtain ⟨i, hir, rfl⟩ := List.mem_map.1 hvm'
    rw [List.mem_range] at hir
    have hm := hv _ (getD_mem img.data i hir)
    by_cases hg : i / 4 < img.width * img.height ∧ i % 4 < 3
    · rw [if_pos hg]
      exact documentModeChannel_range _ _ _ _ hm.1 hm.2
    · rw [if_neg hg]
      exact hm
  · intro v hvm
    have hvm' : v ∈ (List.range img.data.length).map (fun i =>
        if i % 4 < 3 then
          enhanceChannelVal contrast bright gs
            (img.data.getD (4 * (i / 4)) 0)
            (img.data.getD (4 * (i / 4) + 1) 0)
            (img.data.getD (4 * (i / 4) + 2) 0)
            (i % 4)
        else img.data.getD i 0) := hvm
    obtain ⟨i, hir, rfl⟩ := List.mem_map.1 hvm'
    rw [List.mem_range] at hir
    by_cases hg : i % 4 < 3
    · rw [if_pos hg]
      simp only [enhanceChannelVal]
      exact ⟨clampQ_nonneg _, clampQ_le _⟩
    · rw [if_neg hg]
      exact hv _ (getD_mem img.data i hir)

/-- C3 witness: range preservation instantiated at a concrete 1×1 buffer. -/
theorem stages_preserve_range_witness :
    (∀ v ∈ (ImageBuffer.mk 1 1 [10, 20, 30, 40]).data, 0 ≤ v ∧ v ≤ 255) ∧
    (∀ v ∈ (adaptiveLightingCorrection (ImageBuffer.mk 1 1 [10, 20, 30, 40])
      24 (9/10)).data, 0 ≤ v ∧ v ≤ 255) :=
  ⟨by intro v hv; fin_cases hv <;> norm_num,
   (stages_preserve_range (ImageBuffer.mk 1 1 [10, 20, 30, 40]) 24 (9/10) (17/20)
     (3/2) 10 false (by intro v hv; fin_cases hv <;> norm_num)).1⟩

/-- C10: whenever the interpolated local brightness at a pixel is not strictly
positive, the guard of `ImageProcessor.js:183` leaves the correction factor at
`1` and the pixel unchanged (the division `target / localBrightness` is never
taken); in particular an all-black buffer is returned unchanged for every
strength. -/
theorem adaptive_dark_guard (img : ImageBuffer) (bs : ℕ) (strength : ℚ) (x y c : ℕ)
    (hlen : img.data.length = img.width * img.height * 4)
    (hv : ∀ v ∈ img.data, v ≤ 255)
    (hx : x < img.width) (hy : y < img.height) (hc : c < 3)
    (hlb : localBrightnessAt img bs x y ≤ 0) :
    correctionFactorAt img bs strength x y = 1 ∧
    (adaptiveLightingCorrection img bs strength).data.getD
        ((y * img.width + x) * 4 + c) 0 =
      img.data.getD ((y * img.width + x) * 4 + c) 0 ∧
    ((∀ v ∈ img.data, v = 0) → adaptiveLightingCorrection img bs strength = img) := by
  have hfac : correctionFactorAt img bs strength x y = 1 := by
    simp only [correctionFactorAt]
    rw [if_neg (not_lt.2 hlb)]
  refine ⟨hfac, ?_, ?_⟩
  · have hidx : (y * img.width + x) * 4 + c < img.data.length := by
      rw [hlen]
      exact idx_lt _ _ _ _ _ hx hy (by omega)
    have e1 : ((y * img.width + x) * 4 + c) / 4 = y * img.width + x := by
      generalize y * img.width + x = p
      omega
    have e2 : ((y * img.width + x) * 4 + c) % 4 = c := by
      generalize y * img.width + x = p
      omega
    show ((List.range img.data.length).map _).getD _ 0 = _
    rw [getD_range_map _ _ _ hidx]
    simp only [e1, e2]
    rw [if_pos ⟨pix_lt _ _ _ _ hx hy, hc⟩, pix_mod _ _ _ hx, pix_div _ _ _ hx,
      hfac, mul_one]
    exact min_eq_right (hv _ (getD_mem img.data _ hidx))
  · intro hz
    refine ImageBuffer.ext rfl rfl ?_
    apply buffer_data_eq
    intro i hi
    by_cases hg : i / 4 < img.width * img.height ∧ i % 4 < 3
    · rw [if_pos hg, hz _ (getD_mem img.data i hi), zero_mul]
      norm_num
    · rw [if_neg hg]

/-- C6: `adaptiveLightingCorrection` with `strength = 0` is the identity on
every valid 8-bit buffer, and with `strength = 1` it is the identity on every
uniformly lit buffer (all pixels sharing one mean brightness `B`). -/
theorem adaptive_identity (img : ImageBuffer) (bs : ℕ) (B : ℚ)
    (hbs : 0 < bs) (hv : ∀ v ∈ img.data, v ≤ 255) :
    adaptiveLightingCorrection img bs 0 = img ∧
    ((∀ x, x < img.width → ∀ y, y < img.height → brightnessAt img x y = B) →
      adaptiveLightingCorrection img bs 1 = img) := by
  constructor
  · refine ImageBuffer.ext rfl rfl ?_
    apply buffer_data_eq
    intro i hi
    by_cases hg : i / 4 < img.width * img.height ∧ i % 4 < 3
    · rw [if_pos hg]
      have hfac : correctionFactorAt img bs 0 ((i / 4) % img.width)
          ((i / 4) / img.width) = 1 := by
        simp only [correctionFactorAt]
        split
        · rw [mul_zero, add_zero]
          norm_num [min_def, max_def]
        · rfl
      rw [hfac, mul_one]
      exact min_eq_right (hv _ (getD_mem img.data i hi))
    · rw [if_neg hg]
  · intro hB
    refine ImageBuffer.ext rfl rfl ?_
    apply buffer_data_eq
    intro i hi
    by_cases hg : i / 4 < img.width * img.height ∧ i % 4 < 3
    · rw [if_pos hg]
      have hb := touched_bounds hg.1
      have hw : 0 < img.width := Nat.lt_of_le_of_lt (Nat.zero_le _) hb.1
      have hh : 0 < img.height := Nat.lt_of_le_of_lt (Nat.zero_le _) hb.2
      have hlb : localBrightnessAt img bs ((i / 4) % img.width)
          ((i / 4) / img.width) = B :=
        uniform_localBrightness img bs _ _ B hbs hb.1 hb.2 hB
      have hgm : globalMeanB img bs = B := uniform_globalMean img bs B hbs hw hh hB
      have hfac : correctionFactorAt img bs 1 ((i / 4) % img.width)
          ((i / 4) / img.width) = 1 := by
        simp only [correctionFactorAt, hlb, hgm]
        split
        · rename_i hpos
          rw [div_self (ne_of_gt hpos)]
          norm_num [min_def, max_def]
        · rfl
      rw [hfac, mul_one]
      exact min_eq_right (hv _ (getD_mem img.data i hi))
    · rw [if_neg hg]

/-- C10 witness: the guard instantiated at a concrete all-black 1×1 buffer. -/
theorem adaptive_dark_guard_witness :
    localBrightnessAt (ImageBuffer.mk 1 1 [0, 0, 0, 0]) 1 0 0 ≤ 0 ∧
    (correctionFactorAt (ImageBuffer.mk 1 1 [0, 0, 0, 0]) 1 (9/10) 0 0 = 1 ∧
     (adaptiveLightingCorrection (ImageBuffer.mk 1 1 [0, 0, 0, 0]) 1 (9/10)).data.getD
        ((0 * 1 + 0) * 4 + 0) 0 =
       (ImageBuffer.mk 1 1 [0, 0, 0, 0]).data.getD ((0 * 1 + 0) * 4 + 0) 0 ∧
     ((∀ v ∈ (ImageBuffer.mk 1 1 [0, 0, 0, 0]).data, v = 0) →
       adaptiveLightingCorrection (ImageBuffer.mk 1 1 [0, 0, 0, 0]) 1 (9/10) =
         ImageBuffer.mk 1 1 [0, 0, 0, 0])) := by
  have hB : ∀ x, x < 1 → ∀ y, y < 1 →
      brightnessAt (ImageBuffer.mk 1 1 [0, 0, 0, 0]) x y = 0 := by
    intro x hx y hy
    have hx0 : x = 0 := by omega
    have hy0 : y = 0 := by omega
    subst hx0; subst hy0
    norm_num [brightnessAt, List.getD]
  have hlb : localBrightnessAt (ImageBuffer.mk 1 1 [0, 0, 0, 0]) 1 0 0 = 0 :=
    uniform_localBrightness (ImageBuffer.mk 1 1 [0, 0, 0, 0]) 1 0 0 0
      (by norm_num) (by norm_num) (by norm_num) hB
  exact ⟨le_of_eq hlb,
    adaptive_dark_guard (ImageBuffer.mk 1 1 [0, 0, 0, 0]) 1 (9/10) 0 0 0 rfl
      (by intro v hv; fin_cases hv <;> norm_num)
      (by norm_num) (by norm_num) (by norm_num) (le_of_eq hlb)⟩

/-- C6 witness: the identity instances at a concrete uniformly lit 1×1 buffer
of brightness 20. -/
theorem adaptive_identity_witness :
    ((0:ℕ) < 1 ∧ (∀ v ∈ (ImageBuffer.mk 1 1 [10, 20, 30, 40]).data, v ≤ 255) ∧
     (∀ x, x < 1 → ∀ y, y < 1 →
        brightnessAt (ImageBuffer.mk 1 1 [10, 20, 30, 40]) x y = 20)) ∧
    adaptiveLightingCorrection (ImageBuffer.mk 1 1 [10, 20, 30, 40]) 1 0 =
      ImageBuffer.mk 1 1 [10, 20, 30, 40] ∧
    adaptiveLightingCorrection (ImageBuffer.mk 1 1 [10, 20, 30, 40]) 1 1 =
      ImageBuffer.mk 1 1 [10, 20, 30, 40] := by
  have hv : ∀ v ∈ (ImageBuffer.mk 1 1 [10, 20, 30, 40]).data, v ≤ 255 := by
    intro v hv; fin_cases hv <;> norm_num
  have hB : ∀ x, x < 1 → ∀ y, y < 1 →
      brightnessAt (ImageBuffer.mk 1 1 [10, 20, 30, 40]) x y = 20 := by
    intro x hx y hy
    have hx0 : x = 0 := by omega
    have hy0 : y = 0 := by omega
    subst hx0; subst hy0
    norm_num [brightnessAt, List.getD]
  refine ⟨⟨by norm_num, hv, hB⟩, ?_, ?_⟩
  · exact (adaptive_identity (ImageBuffer.mk 1 1 [10, 20, 30, 40]) 1 20
      (by norm_num) hv).1
  · exact (adaptive_identity (ImageBuffer.mk 1 1 [10, 20, 30, 40]) 1 20
      (by norm_num) hv).2 hB

theorem documentModeChannel_cases (lmin lmax wp v : ℚ) (hwp : wp ≤ 1) :
    (lmax - lmin ≤ 20 → documentModeChannel lmin lmax wp v = v) ∧
    (20 < lmax - lmin →
      ((lmin + (lmax - lmin) * wp < v → 215 ≤ documentModeChannel lmin lmax wp v) ∧
       (v ≤ lmin + (lmax - lmin) * wp → documentModeChannel lmin lmax wp v ≤ 215))) := by
  constructor
  · intro h
    simp only [documentModeChannel]
    rw [if_neg (not_lt.2 h)]
  · intro hr
    constructor
    · intro hv
      simp only [documentModeChannel]
      rw [if_pos hr, if_pos hv]
      apply le_clampQ_of_le _ (by norm_num)
      have h1 : 0 ≤ (lmax - lmin) * (1 - wp) :=
        mul_nonneg (by linarith) (by linarith)
      have hden : 0 < lmax - (lmin + (lmax - lmin) * wp) + 1 := by
        have e : lmax - (lmin + (lmax - lmin) * wp) + 1 =
            (lmax - lmin) * (1 - wp) + 1 := by ring
        linarith [e]
      have hratio : 0 < (v - (lmin + (lmax - lmin) * wp)) /
          (lmax - (lmin + (lmax - lmin) * wp) + 1) :=
        div_pos (by linarith) hden
      linarith [hratio]
    · intro hv
      simp only [documentModeChannel]
      rw [if_pos hr]
      by_cases ht : lmin + (lmax - lmin) * wp < v
      · exact absurd ht (not_lt.2 hv)
      · rw [if_neg ht]
        apply clampQ_le_of_le _ (by norm_num)
        have hrngpos : (0:ℚ) < lmax - lmin := by linarith
        have hnorm : (v - lmin) / (lmax - lmin) ≤ wp := by
          rw [div_le_iff₀ hrngpos]
          have e : (lmax - lmin) * wp = wp * (lmax - lmin) := mul_comm _ _
          linarith [e]
        have hone : (v - lmin) / (lmax - lmin) ≤ 1 := le_trans hnorm hwp
        linarith [hone]

/-- C4: in `applyDocumentMode`, a pixel whose interpolated local range is at
most 20 is left unmodified in every colour channel; where the range exceeds
20, a channel value above the local threshold
`localMin + range * whitePoint` is mapped to a result that is at least 215,
and a channel value at or below the threshold is mapped to a result that is
at most 215 (post-clamp), for any `whitePoint ≤ 1`. -/
theorem documentMode_pixel (img : ImageBuffer) (bs : ℕ) (wp : ℚ) (x y c : ℕ)
    (hlen : img.data.length = img.width * img.height * 4)
    (hwp : wp ≤ 1) (hc : c < 3) (hx : x < img.width) (hy : y < img.height) :
    (localMaxAt img bs x y - localMinAt img bs x y ≤ 20 →
      (applyDocumentMode img bs wp).data.getD ((y * img.width + x) * 4 + c) 0 =
        img.data.getD ((y * img.width + x) * 4 + c) 0) ∧
    (20 < localMaxAt img bs x y - localMinAt img bs x y →
      ((localMinAt img bs x y +
          (localMaxAt img bs x y - localMinAt img bs x y) * wp <
            img.data.getD ((y * img.width + x) * 4 + c) 0 →
        215 ≤ (applyDocumentMode img bs wp).data.getD
          ((y * img.width + x) * 4 + c) 0) ∧
       (img.data.getD ((y * img.width + x) * 4 + c) 0 ≤
          localMinAt img bs x y +
            (localMaxAt img bs x y - localMinAt img bs x y) * wp →
        (applyDocumentMode img bs wp).data.getD
          ((y * img.width + x) * 4 + c) 0 ≤ 215))) := by
  have hidx : (y * img.width + x) * 4 + c < img.data.length := by
    rw [hlen]
    exact idx_lt _ _ _ _ _ hx hy (by omega)
  have e1 : ((y * img.width + x) * 4 + c) / 4 = y * img.width + x := by
    generalize y * img.width + x = p
    omega
  have e2 : ((y * img.width + x) * 4 + c) % 4 = c := by
    generalize y * img.width + x = p
    omega
  have hout : (applyDocumentMode img bs wp).data.getD
      ((y * img.width + x) * 4 + c) 0 =
      documentModeChannel (localMinAt img bs x y) (localMaxAt img bs x y) wp
        (img.data.getD ((y * img.width + x) * 4 + c) 0) := by
    show ((List.range img.data.length).map _).getD _ 0 = _
    rw [getD_range_map _ _ _ hidx]
    simp only [e1, e2]
    rw [if_pos ⟨pix_lt _ _ _ _ hx hy, hc⟩, pix_mod _ _ _ hx, pix_div _ _ _ hx]
  rw [hout]
  exact documentModeChannel_cases _ _ _ _ hwp

/-- C4 witness: on a concrete 2×1 buffer (one black pixel, one white pixel,
one 2×2 block), the white pixel's red channel lies above the local threshold
and is mapped to at least 215. -/
theorem documentMode_pixel_witness :
    (20 < localMaxAt (ImageBuffer.mk 2 1 [0, 0, 0, 0, 255, 255, 255, 255]) 2 1 0 -
        localMinAt (ImageBuffer.mk 2 1 [0, 0, 0, 0, 255, 255, 255, 255]) 2 1 0 ∧
     localMinAt (ImageBuffer.mk 2 1 [0, 0, 0, 0, 255, 255, 255, 255]) 2 1 0 +
        (localMaxAt (ImageBuffer.mk 2 1 [0, 0, 0, 0, 255, 255, 255, 255]) 2 1 0 -
         localMinAt (ImageBuffer.mk 2 1 [0, 0, 0, 0, 255, 255, 255, 255]) 2 1 0) * (17/20) <
        (ImageBuffer.mk 2 1 [0, 0, 0, 0, 255, 255, 255, 255]).data.getD
          ((0 * 2 + 1) * 4 + 0) 0) ∧
    215 ≤ (applyDocumentMode (ImageBuffer.mk 2 1 [0, 0, 0, 0, 255, 255, 255, 255])
        2 (17/20)).data.getD ((0 * 2 + 1) * 4 + 0) 0 := by
  have hmin : localMinAt (ImageBuffer.mk 2 1 [0, 0, 0, 0, 255, 255, 255, 255]) 2 1 0 = 0 := by
    norm_num [localMinAt, interpBlocks, interpLow, interpHigh, interpFrac,
      blocksCount, blockMinB, blockPixels, allPixels, brightnessAt, List.getD,
      List.range_succ, min_def, max_def]
  have hmax : localMaxAt (ImageBuffer.mk 2 1 [0, 0, 0, 0, 255, 255, 255, 255]) 2 1 0 = 255 := by
    norm_num [localMaxAt, interpBlocks, interpLow, interpHigh, interpFrac,
      blocksCount, blockMaxB, blockPixels, allPixels, brightnessAt, List.getD,
      List.range_succ, min_def, max_def]
  have hv : (ImageBuffer.mk 2 1 [0, 0, 0, 0, 255, 255, 255, 255]).data.getD
      ((0 * 2 + 1) * 4 + 0) 0 = 255 := by
    norm_num [List.getD]
  have hrng : 20 < localMaxAt (ImageBuffer.mk 2 1 [0, 0, 0, 0, 255, 255, 255, 255]) 2 1 0 -
      localMinAt (ImageBuffer.mk 2 1 [0, 0, 0, 0, 255, 255, 255, 255]) 2 1 0 := by
    rw [hmin, hmax]; norm_num
  have hthr : localMinAt (ImageBuffer.mk 2 1 [0, 0, 0, 0, 255, 255, 255, 255]) 2 1 0 +
      (localMaxAt (ImageBuffer.mk 2 1 [0, 0, 0, 0, 255, 255, 255, 255]) 2 1 0 -
       localMinAt (ImageBuffer.mk 2 1 [0, 0, 0, 0, 255, 255, 255, 255]) 2 1 0) * (17/20) <
      (ImageBuffer.mk 2 1 [0, 0, 0, 0, 255, 255, 255, 255]).data.getD
        ((0 * 2 + 1) * 4 + 0) 0 := by
    rw [hmin, hmax, hv]; norm_num
  exact ⟨⟨hrng, hthr⟩,
    ((documentMode_pixel (ImageBuffer.mk 2 1 [0, 0, 0, 0, 255, 255, 255, 255])
      2 (17/20) 1 0 0 rfl (by norm_num) (by norm_num) (by norm_num)
      (by norm_num)).2 hrng).1 hthr⟩

/-- Reduction of `applyPerspectiveCorrection` on an explicit four-point list:
the destructuring succeeds and the zero-dimension `createImageData` guard
decides the outcome. -/
theorem apc_cons (img : ImageBuffer) (tl tr br bl : Pt) (outW outH : ℕ) :
    applyPerspectiveCorrection img [tl, tr, br, bl] outW outH =
      if tempWidth tl tr br bl = 0 ∨ tempHeight tl tr br bl = 0 then none
      else some (drawImageScaled (rectifyIntermediate img tl tr br bl)
        outW outH) := rfl

/-- C5 amended: there is no `InvalidCornersError`. A corner set with fewer
than four points makes the pipeline fail inside the rectification stage (the
destructured corner is undefined and its property access throws, modelled as
`none`); a corner set with more than four points is accepted and the whole
pipeline runs on the first four points, the extras ignored. -/
theorem corner_count_amended (img : ImageBuffer) (corners : List Pt)
    (outW outH : ℕ) (contrast bright : ℚ) (gs adaptive : Bool) (ls : ℚ) :
    processDocument img corners outW outH contrast bright gs adaptive ls =
      if 4 ≤ corners.length then
        processDocument img (corners.take 4) outW outH contrast bright gs adaptive ls
      else none := by
  rcases corners with _ | ⟨a, _ | ⟨b, _ | ⟨cc, _ | ⟨d, t⟩⟩⟩⟩ <;>
    simp [processDocument, applyPerspectiveCorrection]

/-- C1 amended: on a four-point corner set whose rounded intermediate
dimensions are both positive, `applyPerspectiveCorrection` returns a buffer of
exactly `outputWidth × outputHeight` with a full RGBA data array and no
failure; when either rounded dimension is zero (a fully collapsed
quadrilateral), `createImageData(0, 0)` at `ImageProcessor.js:52` throws
`IndexSizeError` and no buffer is produced. -/
theorem perspective_output_dims (img : ImageBuffer) (tl tr br bl : Pt)
    (outW outH : ℕ) :
    (0 < tempWidth tl tr br bl → 0 < tempHeight tl tr br bl →
      ∃ out, applyPerspectiveCorrection img [tl, tr, br, bl] outW outH = some out ∧
        out.width = outW ∧ out.height = outH ∧
        out.data.length = outW * outH * 4) ∧
    (tempWidth tl tr br bl = 0 ∨ tempHeight tl tr br bl = 0 →
      applyPerspectiveCorrection img [tl, tr, br, bl] outW outH = none) := by
  constructor
  · intro hW hH
    rw [apc_cons, if_neg (by omega)]
    exact ⟨drawImageScaled (rectifyIntermediate img tl tr br bl) outW outH,
      rfl, rfl, rfl, by simp [drawImageScaled]⟩
  · intro h
    rw [apc_cons, if_pos h]

theorem tempWidth_eq_spec (tl tr br bl : Pt) :
    tempWidth tl tr br bl = specIntermediateWidth tl tr br bl := by
  unfold tempWidth specIntermediateWidth srcQuadWidth euclideanDist mathHypot
  have e1 : (tr.x - tl.x) ^ 2 + (tr.y - tl.y) ^ 2 =
      (tl.x - tr.x) ^ 2 + (tl.y - tr.y) ^ 2 := by ring
  have e2 : (br.x - bl.x) ^ 2 + (br.y - bl.y) ^ 2 =
      (bl.x - br.x) ^ 2 + (bl.y - br.y) ^ 2 := by ring
  rw [e1, e2]

theorem tempHeight_eq_spec (tl tr br bl : Pt) :
    tempHeight tl tr br bl = specIntermediateHeight tl tr br bl := by
  unfold tempHeight specIntermediateHeight srcQuadHeight euclideanDist mathHypot
  have e1 : (bl.x - tl.x) ^ 2 + (bl.y - tl.y) ^ 2 =
      (tl.x - bl.x) ^ 2 + (tl.y - bl.y) ^ 2 := by ring
  have e2 : (br.x - tr.x) ^ 2 + (br.y - tr.y) ^ 2 =
      (tr.x - br.x) ^ 2 + (tr.y - br.y) ^ 2 := by ring
  rw [e1, e2]

theorem srcPointX_eq_spec (tl tr br bl : Pt) (tw th x y : ℕ) :
    srcPointX tl tr br bl tw th x y = specSourcePointX tl tr br bl tw th x y := by
  simp only [srcPointX, specSourcePointX]

theorem srcPointY_eq_spec (tl tr br bl : Pt) (tw th x y : ℕ) :
    srcPointY tl tr br bl tw th x y = specSourcePointY tl tr br bl tw th x y := by
  simp only [srcPointY, specSourcePointY]

/-- C2: the rectifier's intermediate buffer has exactly the dimensions the
spec describes — the rounded maxima of the opposing corner-edge Euclidean
lengths — and each of its pixels is the source sample at the rounded
(nearest-integer, half rounded up) spec corner-blend point
`(1-u)(1-v)·TL + u(1-v)·TR + uv·BR + (1-u)v·BL`, `u = x/W`, `v = y/H`. -/
theorem rectify_matches_spec (img : ImageBuffer) (tl tr br bl : Pt) :
    (rectifyIntermediate img tl tr br bl).width = specIntermediateWidth tl tr br bl ∧
    (rectifyIntermediate img tl tr br bl).height = specIntermediateHeight tl tr br bl ∧
    ∀ x y c, x < specIntermediateWidth tl tr br bl →
      y < specIntermediateHeight tl tr br bl → c < 4 →
      (rectifyIntermediate img tl tr br bl).data.getD
          ((y * specIntermediateWidth tl tr br bl + x) * 4 + c) 0 =
        sampleSrc img
          (round (specSourcePointX tl tr br bl (specIntermediateWidth tl tr br bl)
            (specIntermediateHeight tl tr br bl) x y))
          (round (specSourcePointY tl tr br bl (specIntermediateWidth tl tr br bl)
            (specIntermediateHeight tl tr br bl) x y)) c ∧
      |specSourcePointX tl tr br bl (specIntermediateWidth tl tr br bl)
          (specIntermediateHeight tl tr br bl) x y -
        (round (specSourcePointX tl tr br bl (specIntermediateWidth tl tr br bl)
          (specIntermediateHeight tl tr br bl) x y) : ℝ)| ≤ 1/2 ∧
      |specSourcePointY tl tr br bl (specIntermediateWidth tl tr br bl)
          (specIntermediateHeight tl tr br bl) x y -
        (round (specSourcePointY tl tr br bl (specIntermediateWidth tl tr br bl)
          (specIntermediateHeight tl tr br bl) x y) : ℝ)| ≤ 1/2 := by
  have hW := tempWidth_eq_spec tl tr br bl
  have hH := tempHeight_eq_spec tl tr br bl
  refine ⟨hW, hH, ?_⟩
  intro x y c hx hy hc
  rw [← hW] at hx
  rw [← hH] at hy
  rw [← hW, ← hH]
  refine ⟨?_, abs_sub_round _, abs_sub_round _⟩
  have hidx : (y * tempWidth tl tr br bl + x) * 4 + c <
      tempWidth tl tr br bl * tempHeight tl tr br bl * 4 :=
    idx_lt _ _ _ _ _ hx hy hc
  have e1 : ((y * tempWidth tl tr br bl + x) * 4 + c) / 4 =
      y * tempWidth tl tr br bl + x := by
    generalize y * tempWidth tl tr br bl + x = p
    omega
  have e2 : ((y * tempWidth tl tr br bl + x) * 4 + c) % 4 = c := by
    generalize y * tempWidth tl tr br bl + x = p
    omega
  show ((List.range _).map _).getD _ 0 = _
  rw [getD_range_map _ _ _ hidx]
  simp only [e1, e2, pix_mod _ _ _ hx, pix_div _ _ _ hx]
  rw [srcPointX_eq_spec, srcPointY_eq_spec]

/-- C8: every intermediate-buffer pixel whose rounded sample point falls
outside the source bounds keeps the zero fill in all four channels, and for an
in-bounds sample point the flat source index read is within the source data
array — the source is never indexed out of bounds. -/
theorem rectify_out_of_bounds (img : ImageBuffer) (tl tr br bl : Pt) (x y c : ℕ)
    (hx : x < tempWidth tl tr br bl) (hy : y < tempHeight tl tr br bl)
    (hc : c < 4) :
    (¬ inSrcBounds img
        (round (srcPointX tl tr br bl (tempWidth tl tr br bl)
          (tempHeight tl tr br bl) x y))
        (round (srcPointY tl tr br bl (tempWidth tl tr br bl)
          (tempHeight tl tr br bl) x y)) →
      (rectifyIntermediate img tl tr br bl).data.getD
        ((y * tempWidth tl tr br bl + x) * 4 + c) 0 = 0) ∧
    (inSrcBounds img
        (round (srcPointX tl tr br bl (tempWidth tl tr br bl)
          (tempHeight tl tr br bl) x y))
        (round (srcPointY tl tr br bl (tempWidth tl tr br bl)
          (tempHeight tl tr br bl) x y)) →
      img.data.length = img.width * img.height * 4 →
      ((round (srcPointY tl tr br bl (tempWidth tl tr br bl)
            (tempHeight tl tr br bl) x y)).toNat * img.width +
          (round (srcPointX tl tr br bl (tempWidth tl tr br bl)
            (tempHeight tl tr br bl) x y)).toNat) * 4 + c < img.data.length) := by
  have hidx : (y * tempWidth tl tr br bl + x) * 4 + c <
      tempWidth tl tr br bl * tempHeight tl tr br bl * 4 :=
    idx_lt _ _ _ _ _ hx hy hc
  have e1 : ((y * tempWidth tl tr br bl + x) * 4 + c) / 4 =
      y * tempWidth tl tr br bl + x := by
    generalize y * tempWidth tl tr br bl + x = p
    omega
  have e2 : ((y * tempWidth tl tr br bl + x) * 4 + c) % 4 = c := by
    generalize y * tempWidth tl tr br bl + x = p
    omega
  have hout : (rectifyIntermediate img tl tr br bl).data.getD
      ((y * tempWidth tl tr br bl + x) * 4 + c) 0 =
      sampleSrc img
        (round (srcPointX tl tr br bl (tempWidth tl tr br bl)
          (tempHeight tl tr br bl) x y))
        (round (srcPointY tl tr br bl (tempWidth tl tr br bl)
          (tempHeight tl tr br bl) x y)) c := by
    show ((List.range _).map _).getD _ 0 = _
    rw [getD_range_map _ _ _ hidx]
    simp only [e1, e2, pix_mod _ _ _ hx, pix_div _ _ _ hx]
  constructor
  · intro hnb
    rw [hout]
    simp only [sampleSrc]
    rw [if_neg hnb]
  · intro hb hlen
    obtain ⟨hx0, hxw, hy0, hyh⟩ := hb
    have hxn : (round (srcPointX tl tr br bl (tempWidth tl tr br bl)
        (tempHeight tl tr br bl) x y)).toNat < img.width := by omega
    have hyn : (round (srcPointY tl tr br bl (tempWidth tl tr br bl)
        (tempHeight tl tr br bl) x y)).toNat < img.height := by omega
    rw [hlen]
    exact idx_lt _ _ _ _ _ hxn hyn hc

theorem tempWidth_demo :
    tempWidth (Pt.mk 0 0) (Pt.mk 3 0) (Pt.mk 3 2) (Pt.mk 0 2) = 3 := by
  unfold tempWidth srcQuadWidth mathHypot
  norm_num
  rw [show ((9:ℝ) = 3 ^ 2) by norm_num, Real.sqrt_sq (by norm_num : (0:ℝ) ≤ 3)]
  norm_num
  rfl

theorem tempHeight_demo :
    tempHeight (Pt.mk 0 0) (Pt.mk 3 0) (Pt.mk 3 2) (Pt.mk 0 2) = 2 := by
  unfold tempHeight srcQuadHeight mathHypot
  norm_num
  rw [show ((4:ℝ) = 2 ^ 2) by norm_num, Real.sqrt_sq (by norm_num : (0:ℝ) ≤ 2)]
  norm_num
  rfl

theorem specWidth_demo :
    specIntermediateWidth (Pt.mk 0 0) (Pt.mk 3 0) (Pt.mk 3 2) (Pt.mk 0 2) = 3 := by
  rw [← tempWidth_eq_spec]
  exact tempWidth_demo

theorem specHeight_demo :
    specIntermediateHeight (Pt.mk 0 0) (Pt.mk 3 0) (Pt.mk 3 2) (Pt.mk 0 2) = 2 := by
  rw [← tempHeight_eq_spec]
  exact tempHeight_demo

/-- C2 witness: on the concrete rectangle TL(0,0) TR(3,0) BR(3,2) BL(0,2) the
intermediate buffer is 3×2 and the pixel (2,0) is the sample at the rounded
spec corner-blend point. -/
theorem rectify_matches_spec_witness :
    ((2:ℕ) < specIntermediateWidth (Pt.mk 0 0) (Pt.mk 3 0) (Pt.mk 3 2) (Pt.mk 0 2) ∧
     (0:ℕ) < specIntermediateHeight (Pt.mk 0 0) (Pt.mk 3 0) (Pt.mk 3 2) (Pt.mk 0 2)) ∧
    (rectifyIntermediate (ImageBuffer.mk 1 1 [5, 6, 7, 8])
        (Pt.mk 0 0) (Pt.mk 3 0) (Pt.mk 3 2) (Pt.mk 0 2)).data.getD
        ((0 * specIntermediateWidth (Pt.mk 0 0) (Pt.mk 3 0) (Pt.mk 3 2) (Pt.mk 0 2) + 2)
          * 4 + 0) 0 =
      sampleSrc (ImageBuffer.mk 1 1 [5, 6, 7, 8])
        (round (specSourcePointX (Pt.mk 0 0) (Pt.mk 3 0) (Pt.mk 3 2) (Pt.mk 0 2)
          (specIntermediateWidth (Pt.mk 0 0) (Pt.mk 3 0) (Pt.mk 3 2) (Pt.mk 0 2))
          (specIntermediateHeight (Pt.mk 0 0) (Pt.mk 3 0) (Pt.mk 3 2) (Pt.mk 0 2)) 2 0))
        (round (specSourcePointY (Pt.mk 0 0) (Pt.mk 3 0) (Pt.mk 3 2) (Pt.mk 0 2)
          (specIntermediateWidth (Pt.mk 0 0) (Pt.mk 3 0) (Pt.mk 3 2) (Pt.mk 0 2))
          (specIntermediateHeight (Pt.mk 0 0) (Pt.mk 3 0) (Pt.mk 3 2) (Pt.mk 0 2)) 2 0))
        0 := by
  have h1 : (2:ℕ) < specIntermediateWidth (Pt.mk 0 0) (Pt.mk 3 0) (Pt.mk 3 2) (Pt.mk 0 2) := by
    rw [specWidth_demo]
    norm_num
  have h2 : (0:ℕ) < specIntermediateHeight (Pt.mk 0 0) (Pt.mk 3 0) (Pt.mk 3 2) (Pt.mk 0 2) := by
    rw [specHeight_demo]
    norm_num
  exact ⟨⟨h1, h2⟩,
    ((rectify_matches_spec (ImageBuffer.mk 1 1 [5, 6, 7, 8])
      (Pt.mk 0 0) (Pt.mk 3 0) (Pt.mk 3 2) (Pt.mk 0 2)).2.2 2 0 0 h1 h2 (by norm_num)).1⟩

/-- C8 witness: with a 1×1 source and the rectangle TL(0,0) TR(3,0) BR(3,2)
BL(0,2), intermediate pixel (2,0) maps to source point (2,0), outside the 1×1
bounds, and its channel 0 is the zero fill. -/
theorem rectify_out_of_bounds_witness :
    ((2:ℕ) < tempWidth (Pt.mk 0 0) (Pt.mk 3 0) (Pt.mk 3 2) (Pt.mk 0 2) ∧
     (0:ℕ) < tempHeight (Pt.mk 0 0) (Pt.mk 3 0) (Pt.mk 3 2) (Pt.mk 0 2) ∧
     ¬ inSrcBounds (ImageBuffer.mk 1 1 [5, 6, 7, 8])
        (round (srcPointX (Pt.mk 0 0) (Pt.mk 3 0) (Pt.mk 3 2) (Pt.mk 0 2)
          (tempWidth (Pt.mk 0 0) (Pt.mk 3 0) (Pt.mk 3 2) (Pt.mk 0 2))
          (tempHeight (Pt.mk 0 0) (Pt.mk 3 0) (Pt.mk 3 2) (Pt.mk 0 2)) 2 0))
        (round (srcPointY (Pt.mk 0 0) (Pt.mk 3 0) (Pt.mk 3 2) (Pt.mk 0 2)
          (tempWidth (Pt.mk 0 0) (Pt.mk 3 0) (Pt.mk 3 2) (Pt.mk 0 2))
          (tempHeight (Pt.mk 0 0) (Pt.mk 3 0) (Pt.mk 3 2) (Pt.mk 0 2)) 2 0))) ∧
    (rectifyIntermediate (ImageBuffer.mk 1 1 [5, 6, 7, 8])
        (Pt.mk 0 0) (Pt.mk 3 0) (Pt.mk 3 2) (Pt.mk 0 2)).data.getD
      ((0 * tempWidth (Pt.mk 0 0) (Pt.mk 3 0) (Pt.mk 3 2) (Pt.mk 0 2) + 2) * 4 + 0) 0
      = 0 := by
  have h1 : (2:ℕ) < tempWidth (Pt.mk 0 0) (Pt.mk 3 0) (Pt.mk 3 2) (Pt.mk 0 2) := by
    rw [tempWidth_demo]
    norm_num
  have h2 : (0:ℕ) < tempHeight (Pt.mk 0 0) (Pt.mk 3 0) (Pt.mk 3 2) (Pt.mk 0 2) := by
    rw [tempHeight_demo]
    norm_num
  have hsx : round (srcPointX (Pt.mk 0 0) (Pt.mk 3 0) (Pt.mk 3 2) (Pt.mk 0 2)
      (tempWidth (Pt.mk 0 0) (Pt.mk 3 0) (Pt.mk 3 2) (Pt.mk 0 2))
      (tempHeight (Pt.mk 0 0) (Pt.mk 3 0) (Pt.mk 3 2) (Pt.mk 0 2)) 2 0) = 2 := by
    rw [tempWidth_demo, tempHeight_demo]
    have he : srcPointX (Pt.mk 0 0) (Pt.mk 3 0) (Pt.mk 3 2) (Pt.mk 0 2) 3 2 2 0 = 2 := by
      simp only [srcPointX]
      norm_num
    rw [he]
    norm_num
  have hsy : round (srcPointY (Pt.mk 0 0) (Pt.mk 3 0) (Pt.mk 3 2) (Pt.mk 0 2)
      (tempWidth (Pt.mk 0 0) (Pt.mk 3 0) (Pt.mk 3 2) (Pt.mk 0 2))
      (tempHeight (Pt.mk 0 0) (Pt.mk 3 0) (Pt.mk 3 2) (Pt.mk 0 2)) 2 0) = 0 := by
    rw [tempWidth_demo, tempHeight_demo]
    have he : srcPointY (Pt.mk 0 0) (Pt.mk 3 0) (Pt.mk 3 2) (Pt.mk 0 2) 3 2 2 0 = 0 := by
      simp only [srcPointY]
      norm_num
    rw [he]
    norm_num
  have hnb : ¬ inSrcBounds (ImageBuffer.mk 1 1 [5, 6, 7, 8])
      (round (srcPointX (Pt.mk 0 0) (Pt.mk 3 0) (Pt.mk 3 2) (Pt.mk 0 2)
        (tempWidth (Pt.mk 0 0) (Pt.mk 3 0) (Pt.mk 3 2) (Pt.mk 0 2))
        (tempHeight (Pt.mk 0 0) (Pt.mk 3 0) (Pt.mk 3 2) (Pt.mk 0 2)) 2 0))
      (round (srcPointY (Pt.mk 0 0) (Pt.mk 3 0) (Pt.mk 3 2) (Pt.mk 0 2)
        (tempWidth (Pt.mk 0 0) (Pt.mk 3 0) (Pt.mk 3 2) (Pt.mk 0 2))
        (tempHeight (Pt.mk 0 0) (Pt.mk 3 0) (Pt.mk 3 2) (Pt.mk 0 2)) 2 0)) := by
    rw [hsx, hsy]
    intro hcontra
    obtain ⟨-, hxw, -, -⟩ := hcontra
    norm_num at hxw
  exact ⟨⟨h1, h2, hnb⟩,
    (rectify_out_of_bounds (ImageBuffer.mk 1 1 [5, 6, 7, 8])
      (Pt.mk 0 0) (Pt.mk 3 0) (Pt.mk 3 2) (Pt.mk 0 2) 2 0 0 h1 h2 (by norm_num)).1 hnb⟩

theorem tempWidth_zero :
    tempWidth (Pt.mk 0 0) (Pt.mk 0 0) (Pt.mk 0 0) (Pt.mk 0 0) = 0 := by
  unfold tempWidth srcQuadWidth mathHypot
  norm_num

/-- C1 counterexample: at a fully degenerate corner set (all four corners
coincide) both rounded intermediate dimensions are zero, so the real code
throws `IndexSizeError` at `createImageData(0, 0)` and no
`outputWidth × outputHeight` buffer is returned — refuting "no exception even
for degenerate quadrilaterals". -/
theorem perspective_output_dims_counterexample :
    applyPerspectiveCorrection (ImageBuffer.mk 1 1 [1, 2, 3, 4])
      [Pt.mk 0 0, Pt.mk 0 0, Pt.mk 0 0, Pt.mk 0 0] 816 1056 = none := by
  rw [apc_cons, if_pos (Or.inl tempWidth_zero)]

/-- C1 witness: the amended guarantee at a concrete corner rectangle with
positive rounded dimensions (3×2). -/
theorem perspective_output_dims_witness :
    (0 < tempWidth (Pt.mk 0 0) (Pt.mk 3 0) (Pt.mk 3 2) (Pt.mk 0 2) ∧
     0 < tempHeight (Pt.mk 0 0) (Pt.mk 3 0) (Pt.mk 3 2) (Pt.mk 0 2)) ∧
    ∃ out, applyPerspectiveCorrection (ImageBuffer.mk 1 1 [1, 2, 3, 4])
        [Pt.mk 0 0, Pt.mk 3 0, Pt.mk 3 2, Pt.mk 0 2] 816 1056 = some out ∧
      out.width = 816 ∧ out.height = 1056 ∧
      out.data.length = 816 * 1056 * 4 := by
  have hW : 0 < tempWidth (Pt.mk 0 0) (Pt.mk 3 0) (Pt.mk 3 2) (Pt.mk 0 2) := by
    rw [tempWidth_demo]
    norm_num
  have hH : 0 < tempHeight (Pt.mk 0 0) (Pt.mk 3 0) (Pt.mk 3 2) (Pt.mk 0 2) := by
    rw [tempHeight_demo]
    norm_num
  exact ⟨⟨hW, hH⟩,
    (perspective_output_dims (ImageBuffer.mk 1 1 [1, 2, 3, 4])
      (Pt.mk 0 0) (Pt.mk 3 0) (Pt.mk 3 2) (Pt.mk 0 2) 816 1056).1 hW hH⟩

/-- C5 counterexample: a five-point corner set — the non-degenerate rectangle
TL(0,0) TR(3,0) BR(3,2) BL(0,2) plus an extra fifth point — is not rejected:
the pipeline runs to completion on the first four corners (the claim says it
must fail with `InvalidCornersError` before any stage executes). -/
theorem corner_count_counterexample :
    (processDocument (ImageBuffer.mk 1 1 [1, 2, 3, 4])
      [Pt.mk 0 0, Pt.mk 3 0, Pt.mk 3 2, Pt.mk 0 2, Pt.mk 7 7]
      816 1056 (3/2) 10 false true (9/10)).isSome = true := by
  have h5 : applyPerspectiveCorrection (ImageBuffer.mk 1 1 [1, 2, 3, 4])
      [Pt.mk 0 0, Pt.mk 3 0, Pt.mk 3 2, Pt.mk 0 2, Pt.mk 7 7] 816 1056 =
      applyPerspectiveCorrection (ImageBuffer.mk 1 1 [1, 2, 3, 4])
      [Pt.mk 0 0, Pt.mk 3 0, Pt.mk 3 2, Pt.mk 0 2] 816 1056 := rfl
  show (Option.map _ _).isSome = true
  rw [h5, apc_cons, if_neg (by rw [tempWidth_demo, tempHeight_demo]; omega)]
  rfl
